import Mathlib

/-!
Verification of the Crime Case Classifier app (`src/app.py`).

The development shallowly embeds the app's model-loading fallback
(`load_model`), its prediction wrapper (`predict_df`), the single-record
row builder (`build_single_row`), the single-prediction display, the batch
upload handler (schema validation, column selection, prediction, CSV
export), and a CSV writer/reader pair modelling `DataFrame.to_csv` /
`pd.read_csv` for the round-trip property.

Machine floats of the original program are modelled as rationals; pandas
DataFrames as a column-name list plus a list of rows of cells; the opaque
scikit-learn model object as a record with a mandatory `predict` and an
optional `predict_proba` entry point (a capability query, mirroring
`hasattr(model, "predict_proba")`).
-/

namespace CrimeApp

/-- A cell of a tabular record: integers, rationals (embedding the floats
of the source), character strings, and timestamps as produced by
`datetime.combine`. -/
inductive Cell where
  | int (n : ℤ)
  | rat (q : ℚ)
  | str (s : List Char)
  | datetime (y mo d h mi : ℕ)
deriving DecidableEq

/-- A pandas DataFrame: ordered column names plus rows of cells. -/
structure DF where
  cols : List String
  rows : List (List Cell)
deriving DecidableEq

/-- The opaque model object: `predict` is mandatory, `predict_proba`
optional (per-row pair of class-0 and class-1 probabilities, mirroring the
two-column matrix the source indexes with `[:, 1]`). -/
structure Model where
  predict : List (List Cell) → List ℤ
  predict_proba : Option (List (List Cell) → List (ℚ × ℚ))

/-- External contract of the model artifact (spec §6): one result per
input row, for both entry points. -/
def Model.Ok (m : Model) : Prop :=
  (∀ rows, (m.predict rows).length = rows.length) ∧
    (∀ pp, m.predict_proba = some pp → ∀ rows, (pp rows).length = rows.length)

/-! ### Decimal digit rendering and parsing -/

/-- Digit to character. -/
def digitChar (d : ℕ) : Char :=
  match d with
  | 0 => '0' | 1 => '1' | 2 => '2' | 3 => '3' | 4 => '4'
  | 5 => '5' | 6 => '6' | 7 => '7' | 8 => '8' | _ => '9'

/-- Character to digit value. -/
def digitVal (c : Char) : ℕ := c.toNat - 48

/-- Decimal digit test. -/
def isDig (c : Char) : Bool := decide (48 ≤ c.toNat ∧ c.toNat ≤ 57)

/-- Little-endian decimal digits of `n`, with explicit fuel. -/
def toDigitsLE (fuel n : ℕ) : List ℕ :=
  match fuel with
  | 0 => []
  | f + 1 => if n = 0 then [] else n % 10 :: toDigitsLE f (n / 10)

/-- Value of a little-endian digit list. -/
def ofDigitsLE (l : List ℕ) : ℕ :=
  match l with
  | [] => 0
  | d :: t => d + 10 * ofDigitsLE t

/-- Decimal rendering of a natural number, most significant digit first. -/
def renderNat (n : ℕ) : List Char :=
  if n = 0 then ['0'] else ((toDigitsLE n n).reverse.map digitChar)

/-- Decimal rendering of an integer. -/
def renderInt (n : ℤ) : List Char :=
  if n < 0 then '-' :: renderNat n.natAbs else renderNat n.natAbs

/-- Parse a run of decimal digits (all characters must be digits). -/
def parseNatOpt (s : List Char) : Option ℕ :=
  if s.isEmpty then none
  else if s.all isDig then some (s.foldl (fun a c => 10 * a + digitVal c) 0)
  else none

/-- Parse an optionally `-`-signed decimal integer. -/
def parseIntOpt (s : List Char) : Option ℤ :=
  match s with
  | [] => none
  | c :: rest =>
    if c = '-' then
      match parseNatOpt rest with
      | some n => some (-(n : ℤ))
      | none => none
    else
      match parseNatOpt (c :: rest) with
      | some n => some ((n : ℤ))
      | none => none

/-- Rendering of a rational as `numerator/denominator`. -/
def renderRat (q : ℚ) : List Char :=
  renderInt q.num ++ '/' :: renderNat q.den

/-- Split a character list at the first `/`. -/
def splitSlash (s : List Char) : Option (List Char × List Char) :=
  match s with
  | [] => none
  | c :: t =>
    if c = '/' then some ([], t)
    else (splitSlash t).map (fun p => (c :: p.1, p.2))

/-- Parse a `numerator/denominator` rational. -/
def parseRatOpt (s : List Char) : Option ℚ :=
  match splitSlash s with
  | none => none
  | some (a, b) =>
    match parseIntOpt a, parseNatOpt b with
    | some n, some d => some (mkRat n d)
    | _, _ => none

/-- Two-digit zero padding, as in `strftime` fields. -/
def pad2 (n : ℕ) : List Char :=
  if n < 10 then ['0', digitChar n] else renderNat n

/-- Rendering of a timestamp, as pandas writes a `datetime` cell
(`YYYY-MM-DD HH:MM:SS`). -/
def renderDT (y mo d h mi : ℕ) : List Char :=
  renderNat y ++ '-' :: pad2 mo ++ '-' :: pad2 d ++
    ' ' :: pad2 h ++ ':' :: pad2 mi ++ ':' :: pad2 0

/-! ### CSV writing (`DataFrame.to_csv`) and reading (`pd.read_csv`) -/

/-- A character that forces quoting of a CSV field (QUOTE_MINIMAL). -/
def specialChar (c : Char) : Bool := c == ',' || c == '"' || c == '\n'

/-- Double every quote character, per the CSV escaping rule. -/
def escapeQuotes (s : List Char) : List Char :=
  match s with
  | [] => []
  | c :: t => if c = '"' then '"' :: '"' :: escapeQuotes t else c :: escapeQuotes t

/-- Render a string field: quoted iff it contains a special character. -/
def renderStr (s : List Char) : List Char :=
  if s.any specialChar then '"' :: (escapeQuotes s ++ ['"']) else s

/-- Render one cell the way `to_csv` writes it. -/
def renderCell (c : Cell) : List Char :=
  match c with
  | .int n => renderInt n
  | .rat q => renderRat q
  | .str s => renderStr s
  | .datetime y mo d h mi => renderDT y mo d h mi

/-- Raw (unescaped) content of a cell as recovered by a CSV reader. -/
def rawCell (c : Cell) : List Char :=
  match c with
  | .int n => renderInt n
  | .rat q => renderRat q
  | .str s => s
  | .datetime y mo d h mi => renderDT y mo d h mi

/-- Render one row, fields separated by commas. -/
def renderRow (r : List Cell) : List Char :=
  match r with
  | [] => []
  | c :: cs =>
    renderCell c ++
      (match cs with
       | [] => []
       | _ :: _ => ',' :: renderRow cs)

/-- Render a table, rows separated by newlines. -/
def renderTable (t : List (List Cell)) : List Char :=
  match t with
  | [] => []
  | r :: rs =>
    renderRow r ++
      (match rs with
       | [] => []
       | _ :: _ => '\n' :: renderTable rs)

/-- `preds.to_csv(buf, index=False)`: header row of column names followed
by the data rows. -/
def toCSV (df : DF) : List Char :=
  renderTable ((df.cols.map (fun c => Cell.str c.data)) :: df.rows)

/-- Scan a quoted field after its opening quote; doubled quotes unescape,
a lone quote closes the field. Returns content and remaining input. -/
def parseQuoted (s : List Char) : List Char × List Char :=
  match s with
  | [] => ([], [])
  | c :: rest =>
    if c = '"' then
      match rest with
      | [] => ([], [])
      | c2 :: rest2 =>
        if c2 = '"' then
          let p := parseQuoted rest2; ('"' :: p.1, p.2)
        else ([], rest)
    else
      let p := parseQuoted rest; (c :: p.1, p.2)

/-- Scan an unquoted field up to (excluding) the next `,` or newline. -/
def parseUnquoted (s : List Char) : List Char × List Char :=
  match s with
  | [] => ([], [])
  | c :: rest =>
    if c = ',' ∨ c = '\n' then ([], c :: rest)
    else
      let p := parseUnquoted rest; (c :: p.1, p.2)

/-- Scan one field, quoted or unquoted. -/
def parseCellRaw (s : List Char) : List Char × List Char :=
  match s with
  | [] => ([], [])
  | c :: rest => if c = '"' then parseQuoted rest else parseUnquoted (c :: rest)

/-- Scan one record: fields separated by commas, terminated by a newline
or end of input. Fuel bounds the number of fields. -/
def parseRec (fuel : ℕ) (s : List Char) : List (List Char) × List Char :=
  match fuel with
  | 0 => ([], [])
  | fuel + 1 =>
    let c := parseCellRaw s
    match c.2 with
    | [] => ([c.1], [])
    | a :: r2 =>
      if a = ',' then
        let rest := parseRec fuel r2
        (c.1 :: rest.1, rest.2)
      else if a = '\n' then ([c.1], r2)
      else ([c.1], [])

/-- Scan all records of the input. Fuel bounds the number of records. -/
def parseTableRaw (fuel : ℕ) (s : List Char) : List (List (List Char)) :=
  match fuel with
  | 0 => []
  | fuel + 1 =>
    match s with
    | [] => []
    | _ :: _ =>
      let p := parseRec (s.length + 1) s
      p.1 :: parseTableRaw fuel p.2

/-- Type inference on a parsed field, as `read_csv` does: integer if it
reads as one, else rational, else string. -/
def interpretCell (s : List Char) : Cell :=
  match parseIntOpt s with
  | some n => .int n
  | none =>
    match parseRatOpt s with
    | some q => .rat q
    | none => .str s

/-- `pd.read_csv` on exported text: first record is the header, remaining
records are typed data rows. -/
def read_csv (s : List Char) : DF :=
  match parseTableRaw (s.length + 1) s with
  | [] => ⟨[], []⟩
  | h :: rs => ⟨h.map String.mk, rs.map (fun r => r.map interpretCell)⟩

/-! ### The app's fixed schema and model loader -/

/-- `RAW_COLS` of `src/app.py`. -/
def RAW_COLS : List String :=
  ["Date Reported", "Date of Occurrence", "Time of Occurrence",
   "City", "Crime Code", "Crime Description",
   "Victim Age", "Victim Gender", "Weapon Used",
   "Crime Domain", "Police Deployed"]

/-- The filesystem/deserializer environment `load_model` runs against:
which candidate files exist, and what `joblib.load` does on each
(returning a model or raising, modelled as `Except`). -/
structure LoadEnv where
  exists_file : String → Bool
  joblib_load : String → Except String Model

/-- The two exception types `load_model` can raise. -/
inductive LoadErr where
  | fileNotFound (msg : String)
  | runtimeError (msg : String)

/-- Message of a raised exception, as interpolated by `f"... {e}"`. -/
def LoadErr.message (e : LoadErr) : String :=
  match e with
  | .fileNotFound m => m
  | .runtimeError m => m

/-- The fixed candidate list of `load_model`. -/
def candidates : List String := ["crime_model.pkl", "svm_model.pkl", "model.pkl"]

/-- Message of the `FileNotFoundError` raised when no candidate exists. -/
def fnfMsg : String :=
  "No model file found. Place crime_model.pkl or svm_model.pkl next to app.py"

/-- The loop of `load_model`: walk the candidates carrying `last_err`;
additionally record every path actually passed to `joblib.load`. -/
def loadGo (env : LoadEnv) (paths : List String) (lastErr : Option String)
    (att : List String) : Except LoadErr (Model × String) × List String :=
  match paths with
  | [] =>
    match lastErr with
    | none => (.error (.fileNotFound fnfMsg), att)
    | some e => (.error (.runtimeError ("Model load failed: " ++ e)), att)
  | p :: rest =>
    if env.exists_file p then
      match env.joblib_load p with
      | .ok m => (.ok (m, p), att ++ [p])
      | .error e => loadGo env rest (some e) (att ++ [p])
    else loadGo env rest lastErr att

/-- `load_model` of `src/app.py`, instrumented with the list of
deserialization attempts actually made. -/
def load_model (env : LoadEnv) : Except LoadErr (Model × String) × List String :=
  loadGo env candidates none []

/-- State of the app after the guarded `load_model()` call at lines
32-36: a failed load is reported and `st.stop()` halts the session before
any input widget is rendered. -/
inductive AppState where
  | halted (msg : String)
  | ready (m : Model) (path : String)

/-- The module-level try/except around `load_model`. -/
def app_start (env : LoadEnv) : AppState :=
  match (load_model env).1 with
  | .ok (m, p) => .ready m p
  | .error e => .halted ("Failed to load model: " ++ e.message)

/-! ### Prediction wrapper, single-record path, batch path -/

/-- The `0.5` literal, in a form the kernel can evaluate. -/
def half : ℚ := mkRat 1 2

/-- `(proba >= 0.5).astype(int)`, per row. -/
def thresh (p : ℚ) : ℤ := if half ≤ p then 1 else 0

/-- `predict_df` of `src/app.py`; the second component counts the
inference invocations made on the model (one batched call per run). -/
def predict_df (m : Model) (df_raw : DF) : DF × ℕ :=
  match m.predict_proba with
  | some pp =>
    let proba := (pp df_raw.rows).map Prod.snd
    (⟨df_raw.cols ++ ["pred_class", "pred_proba_class1"],
      List.zipWith (fun r p => r ++ [Cell.int (thresh p), Cell.rat p]) df_raw.rows proba⟩,
     1)
  | none =>
    let pred := m.predict df_raw.rows
    (⟨df_raw.cols ++ ["pred_class"],
      List.zipWith (fun r c => r ++ [Cell.int c]) df_raw.rows pred⟩,
     1)

/-- Date value fed to the two `st.date_input` widgets. -/
structure DateV where
  y : ℕ
  m : ℕ
  d : ℕ
deriving DecidableEq

/-- Time value fed to the `st.time_input` widget. -/
structure TimeV where
  h : ℕ
  mi : ℕ
deriving DecidableEq

/-- `t.strftime("%H:%M")`. -/
def strftimeHM (t : TimeV) : List Char := pad2 t.h ++ ':' :: pad2 t.mi

/-- `build_single_row` of `src/app.py`: one row over `RAW_COLS`, with
`Date Reported` hardwired to 9 AM of the reported date. -/
def build_single_row (d_reported d_occ : DateV) (t_occ : TimeV)
    (city crime_code crime_desc : List Char)
    (victim_age : ℤ) (victim_gender weapon_used crime_domain : List Char)
    (police_deployed : ℤ) : DF :=
  ⟨RAW_COLS,
   [[Cell.datetime d_reported.y d_reported.m d_reported.d 9 0,
     Cell.datetime d_occ.y d_occ.m d_occ.d t_occ.h t_occ.mi,
     Cell.str (strftimeHM t_occ),
     Cell.str city,
     Cell.str crime_code,
     Cell.str (if crime_desc = [] then [] else crime_desc),
     Cell.int victim_age,
     Cell.str victim_gender,
     Cell.str weapon_used,
     Cell.str crime_domain,
     Cell.int police_deployed]]⟩

/-- `df.loc[i, c]` with a default for an absent column. -/
def DF.getCell (df : DF) (i : ℕ) (c : String) : Cell :=
  (df.rows.getD i []).getD (df.cols.indexOf c) (Cell.str [])

/-- A whole column of a DataFrame, by name. -/
def DF.col (df : DF) (c : String) : List Cell :=
  df.rows.map (fun r => r.getD (df.cols.indexOf c) (Cell.str []))

/-- `df_up[RAW_COLS]`-style column selection/reordering. -/
def DF.select (df : DF) (cols : List String) : DF :=
  ⟨cols, df.rows.map (fun r => cols.map (fun c => r.getD (df.cols.indexOf c) (Cell.str [])))⟩

/-- `int(preds.loc[0, 'pred_class'])`. -/
def cellToInt (c : Cell) : ℤ :=
  match c with
  | .int n => n
  | _ => 0

/-- `float(preds.loc[0, 'pred_proba_class1'])`. -/
def cellToRat (c : Cell) : ℚ :=
  match c with
  | .rat q => q
  | .int n => (n : ℚ)
  | _ => 0

/-- Python's `f"{x:.2%}"`: the value times 100, rounded to two decimal
places, a percent sign. The rounded hundredth-of-percent count
`⌊q·10000 + 1/2⌋` is computed directly on numerator and denominator so
that the kernel can evaluate it. -/
def fmtPercent (q : ℚ) : String :=
  let units : ℤ := Int.fdiv (q.num * 20000 + q.den) (2 * q.den)
  let n : ℕ := units.natAbs
  String.mk ((if units < 0 then ['-'] else []) ++
    renderNat (n / 100) ++ '.' :: pad2 (n % 100) ++ ['%'])

/-- The DataFrame produced by a single-prediction submit (lines 99-105). -/
def single_out (m : Model) (d_reported d_occ : DateV) (t_occ : TimeV)
    (city crime_code crime_desc : List Char)
    (victim_age : ℤ) (victim_gender weapon_used crime_domain : List Char)
    (police_deployed : ℤ) : DF :=
  (predict_df m (build_single_row d_reported d_occ t_occ city crime_code crime_desc
      victim_age victim_gender weapon_used crime_domain police_deployed)).1

/-- The single-prediction display (lines 107-109): the class label, and
the probability line shown only when the probability column exists. -/
def single_display (preds : DF) : String × Option String :=
  ((if cellToInt (preds.getCell 0 "pred_class") = 1 then "Closed" else "Not Closed"),
   if "pred_proba_class1" ∈ preds.cols then
     some (fmtPercent (cellToRat (preds.getCell 0 "pred_proba_class1")))
   else none)

/-- Outcome of the batch upload handler (lines 130-146). -/
inductive BatchResult where
  | schemaError (missing : List String)
  | ok (preds : DF) (csv : List Char)

/-- The batch handler: validate columns, select `RAW_COLS`, predict and
export. Second component counts model inference invocations. -/
def handle_batch (m : Model) (df_up : DF) : BatchResult × ℕ :=
  let missing_cols := RAW_COLS.filter (fun c => !(df_up.cols.contains c))
  if missing_cols = [] then
    let pd := predict_df m (df_up.select RAW_COLS)
    (.ok pd.1 (toCSV pd.1), pd.2)
  else (.schemaError missing_cols, 0)

/-- Column list of a successful batch run, `none` on schema error. -/
def batchOkCols (m : Model) (df : DF) : Option (List String) :=
  match (handle_batch m df).1 with
  | .ok p _ => some p.cols
  | _ => none

/-- The upload widget runs the batch handler only in a session that
survived model loading; a halted session accepts no input. -/
def app_handle_upload (st : AppState) (df_up : DF) : Option (BatchResult × ℕ) :=
  match st with
  | .halted _ => none
  | .ready m _ => some (handle_batch m df_up)

/-- Decidable substring test over character lists. -/
def isSubstr (needle hay : List Char) : Bool :=
  match hay with
  | [] => needle.isEmpty
  | _ :: t => needle.isPrefixOf hay || isSubstr needle t

/-- All characters of `s` are ordinary (no CSV quoting needed). -/
def NonSpecial (s : List Char) : Prop := ∀ c ∈ s, specialChar c = false

/-- The input is exhausted or positioned at a field/record separator. -/
def SepStart (r : List Char) : Prop :=
  r = [] ∨ (∃ t, r = ',' :: t) ∨ (∃ t, r = '\n' :: t)

/-! ### Concrete fixtures used by the claim witnesses -/

/-- Stub model exposing only `predict` (no probability entry point). -/
def mPlain : Model := ⟨fun rows => rows.map (fun _ => 0), none⟩

/-- Stub model whose `predict_proba` returns `(0.27, 0.73)` per row. -/
def mProba : Model :=
  ⟨fun rows => rows.map (fun _ => 0),
   some (fun rows => rows.map (fun _ => (mkRat 27 100, mkRat 73 100)))⟩

/-- Environment where the first two candidates exist and fail to
deserialize with distinct errors, and the third is absent. -/
def envBothFail : LoadEnv :=
  ⟨fun p => p == "crime_model.pkl" || p == "svm_model.pkl",
   fun p => .error (if p == "crime_model.pkl" then "errA" else "errB")⟩

/-- Environment where the first candidate exists and deserializes. -/
def envFirstOk : LoadEnv :=
  ⟨fun p => p == "crime_model.pkl", fun _ => .ok mPlain⟩

/-- Environment where no candidate file exists. -/
def envNone : LoadEnv := ⟨fun _ => false, fun _ => .error "unused"⟩

/-- A valid single-row upload over exactly the raw schema. -/
def dfRaw1 : DF :=
  ⟨RAW_COLS,
   [[Cell.int 0, Cell.int 1, Cell.int 2, Cell.int 3, Cell.int 4, Cell.int 5,
     Cell.int 6, Cell.int 7, Cell.int 8, Cell.int 9, Cell.int 10]]⟩

/-- An upload missing the required `City` column. -/
def dfNoCity : DF :=
  ⟨["Date Reported", "Date of Occurrence", "Time of Occurrence",
    "Crime Code", "Crime Description", "Victim Age", "Victim Gender",
    "Weapon Used", "Crime Domain", "Police Deployed"], []⟩

/-- An upload with all required columns plus an extra one. -/
def dfExtra : DF :=
  ⟨RAW_COLS ++ ["Extra"],
   [[Cell.int 0, Cell.int 0, Cell.int 0, Cell.int 0, Cell.int 0, Cell.int 0,
     Cell.int 0, Cell.int 0, Cell.int 0, Cell.int 0, Cell.int 0, Cell.int 99]]⟩

/-- Fixed sample form values for single-prediction witnesses. -/
def dRep : DateV := ⟨2020, 1, 1⟩

/-- Fixed sample occurrence date. -/
def dOcc : DateV := ⟨2020, 1, 2⟩

/-- Fixed sample occurrence time. -/
def tOcc : TimeV := ⟨12, 30⟩

/-! ## Lemmas: decimal digits -/

theorem ofDigitsLE_toDigitsLE (fuel : ℕ) :
    ∀ n : ℕ, n ≤ fuel → ofDigitsLE (toDigitsLE fuel n) = n := by
  induction fuel with
  | zero => intro n h; interval_cases n; rfl
  | succ f ih =>
    intro n h
    by_cases h0 : n = 0
    · subst h0; simp [toDigitsLE, ofDigitsLE]
    · have hdiv : n / 10 ≤ f := by omega
      simp only [toDigitsLE, h0, if_false, ofDigitsLE, ih _ hdiv]
      omega

theorem toDigitsLE_lt (fuel : ℕ) :
    ∀ n d : ℕ, d ∈ toDigitsLE fuel n → d < 10 := by
  induction fuel with
  | zero => intro n d h; simp [toDigitsLE] at h
  | succ f ih =>
    intro n d h
    by_cases h0 : n = 0
    · subst h0; simp [toDigitsLE] at h
    · simp only [toDigitsLE, h0, if_false, List.mem_cons] at h
      rcases h with h | h
      · omega
      · exact ih _ _ h

theorem digitVal_digitChar (d : ℕ) (h : d < 10) : digitVal (digitChar d) = d := by
  interval_cases d <;> rfl

theorem isDig_digitChar (d : ℕ) (h : d < 10) : isDig (digitChar d) = true := by
  interval_cases d <;> rfl

theorem isDig_not_special (c : Char) (h : isDig c = true) : specialChar c = false := by
  by_contra hb
  have hb' : specialChar c = true := by
    cases hsp : specialChar c
    · exact absurd hsp hb
    · rfl
  simp only [specialChar, Bool.or_eq_true, beq_iff_eq] at hb'
  rcases hb' with (rfl | rfl) | rfl <;> revert h <;> decide

theorem isDig_ne (c : Char) (h : isDig c = true) :
    c ≠ '-' ∧ c ≠ '/' ∧ c ≠ '"' := by
  refine ⟨?_, ?_, ?_⟩ <;> rintro rfl <;> revert h <;> decide

theorem renderNat_all_dig (n : ℕ) : ∀ c ∈ renderNat n, isDig c = true := by
  intro c hc
  unfold renderNat at hc
  by_cases h0 : n = 0
  · simp [h0] at hc; subst hc; decide
  · simp only [h0, if_false, List.mem_map, List.mem_reverse] at hc
    obtain ⟨d, hd, rfl⟩ := hc
    exact isDig_digitChar d (toDigitsLE_lt n n d hd)

theorem renderNat_ne_nil (n : ℕ) : renderNat n ≠ [] := by
  unfold renderNat
  by_cases h0 : n = 0
  · simp [h0]
  · simp only [h0, if_false]
    intro h
    have hnil : toDigitsLE n n = [] := by
      cases hl : toDigitsLE n n with
      | nil => rfl
      | cons a t => rw [hl] at h; simp at h
    have hv := ofDigitsLE_toDigitsLE n n le_rfl
    rw [hnil] at hv
    simp [ofDigitsLE] at hv
    exact h0 hv.symm

theorem foldl_digits (l : List ℕ) :
    ∀ a : ℕ, (∀ d ∈ l, d < 10) →
      List.foldl (fun a c => 10 * a + digitVal c) a (l.reverse.map digitChar) =
        a * 10 ^ l.length + ofDigitsLE l := by
  induction l with
  | nil => intro a _; simp [ofDigitsLE]
  | cons d t ih =>
    intro a hall
    have hd : d < 10 := hall d (by simp)
    have ht : ∀ x ∈ t, x < 10 := fun x hx => hall x (by simp [hx])
    simp only [List.reverse_cons, List.map_append, List.foldl_append, List.map_cons,
      List.map_nil, List.foldl_cons, List.foldl_nil, ih a ht, ofDigitsLE,
      List.length_cons, digitVal_digitChar d hd]
    ring

theorem parseNatOpt_renderNat (n : ℕ) : parseNatOpt (renderNat n) = some n := by
  unfold parseNatOpt
  have hne : renderNat n ≠ [] := renderNat_ne_nil n
  have hdig : (renderNat n).all isDig = true := by
    rw [List.all_eq_true]; exact renderNat_all_dig n
  rw [if_neg (by simpa using hne), if_pos hdig]
  congr 1
  unfold renderNat
  by_cases h0 : n = 0
  · simp [h0, digitVal]
  · simp only [h0, if_false]
    rw [foldl_digits (toDigitsLE n n) 0 (toDigitsLE_lt n n)]
    simp [ofDigitsLE_toDigitsLE n n le_rfl]

/-! ## Lemmas: integer and rational rendering round-trips -/

theorem renderInt_chars (n : ℤ) : ∀ c ∈ renderInt n, isDig c = true ∨ c = '-' := by
  intro c hc
  unfold renderInt at hc
  by_cases hn : n < 0
  · simp only [hn, if_true, List.mem_cons] at hc
    rcases hc with rfl | hc
    · right; rfl
    · left; exact renderNat_all_dig _ c hc
  · simp only [hn, if_false] at hc
    left; exact renderNat_all_dig _ c hc

theorem renderInt_ne_nil (n : ℤ) : renderInt n ≠ [] := by
  unfold renderInt
  by_cases hn : n < 0
  · simp [hn]
  · simp only [hn, if_false]; exact renderNat_ne_nil _

theorem parseIntOpt_renderInt (n : ℤ) : parseIntOpt (renderInt n) = some n := by
  by_cases hn : n < 0
  · have hr : renderInt n = '-' :: renderNat n.natAbs := by unfold renderInt; simp [hn]
    rw [hr]
    simp only [parseIntOpt, if_pos rfl, if_true, parseNatOpt_renderNat, Option.some.injEq]
    omega
  · have hr : renderInt n = renderNat n.natAbs := by unfold renderInt; simp [hn]
    obtain ⟨c, rest, hcr⟩ := List.exists_cons_of_ne_nil (renderNat_ne_nil n.natAbs)
    have hcd : isDig c = true := renderNat_all_dig n.natAbs c (by rw [hcr]; simp)
    have hcne : c ≠ '-' := (isDig_ne c hcd).1
    rw [hr, hcr]
    simp only [parseIntOpt, if_neg hcne, ← hcr, parseNatOpt_renderNat, Option.some.injEq]
    omega

theorem parseNatOpt_slash (s : List Char) (h : '/' ∈ s) : parseNatOpt s = none := by
  unfold parseNatOpt
  have hne : ¬s.isEmpty = true := by
    cases s with
    | nil => simp at h
    | cons a t => simp
  rw [if_neg hne, if_neg]
  intro hall
  rw [List.all_eq_true] at hall
  have := hall '/' h
  revert this
  decide

theorem parseIntOpt_renderRat (q : ℚ) : parseIntOpt (renderRat q) = none := by
  unfold renderRat
  obtain ⟨c, rest, hcr⟩ := List.exists_cons_of_ne_nil (renderInt_ne_nil q.num)
  have hslash : '/' ∈ rest ++ '/' :: renderNat q.den := by simp
  rcases renderInt_chars q.num c (by rw [hcr]; simp) with hcd | hdash
  · rw [hcr]
    simp only [List.cons_append, parseIntOpt, if_neg ((isDig_ne c hcd).1)]
    rw [parseNatOpt_slash _ (by simp)]
  · subst hdash
    rw [hcr]
    simp only [List.cons_append, parseIntOpt, if_pos rfl, if_true]
    rw [parseNatOpt_slash _ hslash]

theorem splitSlash_append (a b : List Char) (h : '/' ∉ a) :
    splitSlash (a ++ '/' :: b) = some (a, b) := by
  induction a with
  | nil => simp [splitSlash]
  | cons c t ih =>
    have hc : c ≠ '/' := by intro hc; exact h (by simp [hc])
    have ht : '/' ∉ t := fun hm => h (by simp [hm])
    simp only [List.cons_append, splitSlash, if_neg hc, List.append_eq, ih ht,
      Option.map_some']

theorem slash_notMem_renderInt (n : ℤ) : '/' ∉ renderInt n := by
  intro hm
  rcases renderInt_chars n '/' hm with hd | hd
  · exact absurd hd (by decide)
  · exact absurd hd (by decide)

theorem parseRatOpt_renderRat (q : ℚ) : parseRatOpt (renderRat q) = some q := by
  unfold parseRatOpt renderRat
  rw [splitSlash_append _ _ (slash_notMem_renderInt q.num)]
  simp only [parseIntOpt_renderInt, parseNatOpt_renderNat]
  rw [Rat.mkRat_self]

theorem interpretCell_int (n : ℤ) : interpretCell (rawCell (Cell.int n)) = Cell.int n := by
  simp [interpretCell, rawCell, parseIntOpt_renderInt]

theorem interpretCell_rat (q : ℚ) : interpretCell (rawCell (Cell.rat q)) = Cell.rat q := by
  simp [interpretCell, rawCell, parseIntOpt_renderRat, parseRatOpt_renderRat]

/-! ## Lemmas: non-special renderings -/

theorem nonSpecial_renderNat (n : ℕ) : NonSpecial (renderNat n) :=
  fun c hc => isDig_not_special c (renderNat_all_dig n c hc)

theorem nonSpecial_pad2 (n : ℕ) : NonSpecial (pad2 n) := by
  intro c hc
  unfold pad2 at hc
  by_cases hlt : n < 10
  · simp only [hlt, if_true, List.mem_cons] at hc
    rcases hc with rfl | rfl | hc
    · decide
    · exact isDig_not_special _ (isDig_digitChar n hlt)
    · simp at hc
  · simp only [hlt, if_false] at hc
    exact nonSpecial_renderNat n c hc

theorem nonSpecial_renderInt (n : ℤ) : NonSpecial (renderInt n) := by
  intro c hc
  rcases renderInt_chars n c hc with hd | rfl
  · exact isDig_not_special c hd
  · decide

theorem nonSpecial_renderRat (q : ℚ) : NonSpecial (renderRat q) := by
  intro c hc
  unfold renderRat at hc
  rw [List.mem_append, List.mem_cons] at hc
  rcases hc with hc | rfl | hc
  · exact nonSpecial_renderInt q.num c hc
  · decide
  · exact nonSpecial_renderNat q.den c hc

theorem nonSpecial_renderDT (y mo d h mi : ℕ) : NonSpecial (renderDT y mo d h mi) := by
  intro c hc
  unfold renderDT at hc
  simp only [List.mem_append, List.mem_cons] at hc
  rcases hc with ((((hc | rfl | hc) | rfl | hc) | rfl | hc) | rfl | hc) | rfl | hc
  · exact nonSpecial_renderNat y c hc
  · decide
  · exact nonSpecial_pad2 mo c hc
  · decide
  · exact nonSpecial_pad2 d c hc
  · decide
  · exact nonSpecial_pad2 h c hc
  · decide
  · exact nonSpecial_pad2 mi c hc
  · decide
  · exact nonSpecial_pad2 0 c hc

/-! ## Lemmas: CSV scanning round-trip -/

theorem sepStart_tail (rest : List Char) (h : rest = [] ∨ ∃ t, rest = '\n' :: t) :
    SepStart rest := by
  rcases h with rfl | ⟨t, rfl⟩
  · exact Or.inl rfl
  · exact Or.inr (Or.inr ⟨t, rfl⟩)

theorem parseUnquoted_append (s : List Char) :
    ∀ rest, NonSpecial s → SepStart rest → parseUnquoted (s ++ rest) = (s, rest) := by
  induction s with
  | nil =>
    intro rest _ hsep
    rcases hsep with rfl | ⟨t, rfl⟩ | ⟨t, rfl⟩
    · rfl
    · simp [parseUnquoted]
    · simp [parseUnquoted]
  | cons c t ih =>
    intro rest hns hsep
    have hc : specialChar c = false := hns c (by simp)
    have hcomma : ¬(c = ',' ∨ c = '\n') := by
      rintro (rfl | rfl) <;> simp [specialChar] at hc
    have ht : NonSpecial t := fun x hx => hns x (by simp [hx])
    simp only [List.cons_append, parseUnquoted, if_neg hcomma, List.append_eq,
      ih rest ht hsep]

theorem parseQuoted_quote_quote (x : List Char) :
    parseQuoted ('"' :: '"' :: x) = ('"' :: (parseQuoted x).1, (parseQuoted x).2) := rfl

theorem parseQuoted_quote_stop (c2 : Char) (x : List Char) (h : c2 ≠ '"') :
    parseQuoted ('"' :: c2 :: x) = ([], c2 :: x) := by
  rw [parseQuoted.eq_def]
  simp [h]

theorem parseQuoted_cons_ne (c : Char) (x : List Char) (h : c ≠ '"') :
    parseQuoted (c :: x) = (c :: (parseQuoted x).1, (parseQuoted x).2) := by
  rw [parseQuoted.eq_def]
  simp [h]

theorem parseQuoted_escape (s : List Char) :
    ∀ rest, SepStart rest → parseQuoted (escapeQuotes s ++ '"' :: rest) = (s, rest) := by
  induction s with
  | nil =>
    intro rest hsep
    rcases hsep with rfl | ⟨t, rfl⟩ | ⟨t, rfl⟩
    · rfl
    · simpa [escapeQuotes] using parseQuoted_quote_stop ',' t (by decide)
    · simpa [escapeQuotes] using parseQuoted_quote_stop '\n' t (by decide)
  | cons c t ih =>
    intro rest hsep
    by_cases hc : c = '"'
    · subst hc
      have he : escapeQuotes ('"' :: t) ++ '"' :: rest =
          '"' :: '"' :: (escapeQuotes t ++ '"' :: rest) := by
        simp [escapeQuotes]
      rw [he, parseQuoted_quote_quote, ih rest hsep]
    · have he : escapeQuotes (c :: t) ++ '"' :: rest =
          c :: (escapeQuotes t ++ '"' :: rest) := by
        simp [escapeQuotes, hc]
      rw [he, parseQuoted_cons_ne c _ hc, ih rest hsep]

theorem parseCellRaw_nonspecial (s : List Char) (rest : List Char)
    (hns : NonSpecial s) (hsep : SepStart rest) :
    parseCellRaw (s ++ rest) = (s, rest) := by
  cases s with
  | nil =>
    rcases hsep with rfl | ⟨t, rfl⟩ | ⟨t, rfl⟩
    · rfl
    · simp [parseCellRaw, parseUnquoted]
    · simp [parseCellRaw, parseUnquoted]
  | cons c t =>
    have hc : specialChar c = false := hns c (by simp)
    have hq : c ≠ '"' := by rintro rfl; simp [specialChar] at hc
    simp only [List.cons_append, parseCellRaw, if_neg hq]
    rw [← List.cons_append]
    exact parseUnquoted_append (c :: t) rest hns hsep

theorem parseCellRaw_render (c : Cell) (rest : List Char) (hsep : SepStart rest) :
    parseCellRaw (renderCell c ++ rest) = (rawCell c, rest) := by
  cases c with
  | int n => exact parseCellRaw_nonspecial _ _ (nonSpecial_renderInt n) hsep
  | rat q => exact parseCellRaw_nonspecial _ _ (nonSpecial_renderRat q) hsep
  | datetime y mo d h mi =>
    exact parseCellRaw_nonspecial _ _ (nonSpecial_renderDT y mo d h mi) hsep
  | str s =>
    by_cases hq : s.any specialChar
    · have hr : renderCell (Cell.str s) = '"' :: (escapeQuotes s ++ ['"']) := by
        simp [renderCell, renderStr, hq]
      rw [hr]
      simp only [List.cons_append, parseCellRaw, if_pos rfl, List.append_assoc,
        List.singleton_append]
      exact parseQuoted_escape s rest hsep
    · have hns : NonSpecial s := by
        intro x hx
        cases hsp : specialChar x
        · rfl
        · exact absurd (List.any_eq_true.mpr ⟨x, hx, hsp⟩) hq
      have hr : renderCell (Cell.str s) = s := by simp [renderCell, renderStr, hq]
      rw [hr]
      exact parseCellRaw_nonspecial _ _ hns hsep

theorem parseRec_render (row : List Cell) :
    ∀ (fuel : ℕ) (rest : List Char), row ≠ [] →
      (rest = [] ∨ ∃ t, rest = '\n' :: t) → row.length ≤ fuel →
      parseRec fuel (renderRow row ++ rest) = (row.map rawCell, rest.tail) := by
  induction row with
  | nil => intro fuel rest h; exact absurd rfl h
  | cons c cs ih =>
    intro fuel rest _ hrest hf
    obtain ⟨f, rfl⟩ : ∃ f, fuel = f + 1 := by
      cases fuel with
      | zero => simp at hf
      | succ f => exact ⟨f, rfl⟩
    cases cs with
    | nil =>
      have hr : renderRow [c] = renderCell c := by simp [renderRow]
      rw [hr]
      simp only [parseRec, parseCellRaw_render c rest (sepStart_tail rest hrest)]
      rcases hrest with rfl | ⟨t, rfl⟩
      · rfl
      · simp
    | cons c2 cs2 =>
      have hr : renderRow (c :: c2 :: cs2) = renderCell c ++ ',' :: renderRow (c2 :: cs2) := by
        simp [renderRow]
      rw [hr, List.append_assoc, List.cons_append]
      have hsep : SepStart (',' :: (renderRow (c2 :: cs2) ++ rest)) :=
        Or.inr (Or.inl ⟨_, rfl⟩)
      simp only [parseRec, parseCellRaw_render c _ hsep, if_pos rfl]
      rw [ih f rest (by simp) hrest (by simpa using Nat.le_of_succ_le_succ hf)]
      simp

theorem renderRow_length (row : List Cell) : row.length ≤ (renderRow row).length + 1 := by
  induction row with
  | nil => simp
  | cons c cs ih =>
    cases cs with
    | nil => simp [renderRow]
    | cons c2 cs2 =>
      have hr : renderRow (c :: c2 :: cs2) = renderCell c ++ ',' :: renderRow (c2 :: cs2) := by
        simp [renderRow]
      rw [hr]
      simp only [List.length_cons, List.length_append] at *
      omega

theorem renderRow_ne_nil (row : List Cell) (h : 2 ≤ row.length) : renderRow row ≠ [] := by
  match row, h with
  | c :: c2 :: cs2, _ =>
    have hr : renderRow (c :: c2 :: cs2) = renderCell c ++ ',' :: renderRow (c2 :: cs2) := by
      simp [renderRow]
    rw [hr]
    simp

theorem renderTable_length (t : List (List Cell)) :
    t.length ≤ (renderTable t).length + 1 := by
  induction t with
  | nil => simp
  | cons r rs ih =>
    cases rs with
    | nil => simp [renderTable]
    | cons r2 rs2 =>
      have hr : renderTable (r :: r2 :: rs2) = renderRow r ++ '\n' :: renderTable (r2 :: rs2) := by
        simp [renderTable]
      rw [hr]
      simp only [List.length_cons, List.length_append] at *
      omega

theorem parseTableRaw_nil (fuel : ℕ) : parseTableRaw fuel [] = [] := by
  cases fuel <;> rfl

theorem parseTableRaw_render (t : List (List Cell)) :
    ∀ fuel : ℕ, t ≠ [] → (∀ r ∈ t, 2 ≤ r.length) → t.length ≤ fuel →
      parseTableRaw fuel (renderTable t) = t.map (List.map rawCell) := by
  induction t with
  | nil => intro fuel h; exact absurd rfl h
  | cons r rs ih =>
    intro fuel _ hlen hf
    obtain ⟨f, rfl⟩ : ∃ f, fuel = f + 1 := by
      cases fuel with
      | zero => simp at hf
      | succ f => exact ⟨f, rfl⟩
    have hrlen : 2 ≤ r.length := hlen r (by simp)
    have hrne : renderRow r ≠ [] := renderRow_ne_nil r hrlen
    have hrne' : r ≠ [] := by rintro rfl; simp at hrlen
    cases rs with
    | nil =>
      have hr : renderTable [r] = renderRow r := by simp [renderTable]
      have hrec := parseRec_render r ((renderRow r).length + 1) [] hrne'
        (Or.inl rfl) (by have := renderRow_length r; omega)
      simp only [List.append_nil] at hrec
      rw [hr]
      obtain ⟨c, t0, hct⟩ := List.exists_cons_of_ne_nil hrne
      rw [hct]
      simp only [parseTableRaw]
      rw [← hct, hrec]
      simp [parseTableRaw_nil]
    | cons r2 rs2 =>
      have hr : renderTable (r :: r2 :: rs2) = renderRow r ++ '\n' :: renderTable (r2 :: rs2) := by
        simp [renderTable]
      have hrec := parseRec_render r
        ((renderRow r ++ '\n' :: renderTable (r2 :: rs2)).length + 1)
        ('\n' :: renderTable (r2 :: rs2)) hrne' (Or.inr ⟨_, rfl⟩)
        (by
          have h1 := renderRow_length r
          simp only [List.length_append, List.length_cons]
          omega)
      rw [hr]
      obtain ⟨c, t0, hct⟩ := List.exists_cons_of_ne_nil hrne
      have hcons : renderRow r ++ '\n' :: renderTable (r2 :: rs2) =
          c :: (t0 ++ '\n' :: renderTable (r2 :: rs2)) := by rw [hct]; simp
      rw [hcons]
      simp only [parseTableRaw]
      rw [← hcons, hrec]
      simp only [List.tail_cons]
      rw [ih f (by simp) (fun x hx => hlen x (by simp [hx]))
        (by simpa using Nat.le_of_succ_le_succ hf)]
      simp

theorem stringMk_data (s : String) : String.mk s.data = s := rfl

theorem read_csv_toCSV (df : DF) (hrows : ∀ r ∈ df.rows, 2 ≤ r.length)
    (hcols : 2 ≤ df.cols.length) :
    read_csv (toCSV df) =
      ⟨df.cols, df.rows.map (fun r => r.map (fun c => interpretCell (rawCell c)))⟩ := by
  unfold read_csv toCSV
  rw [parseTableRaw_render ((df.cols.map (fun c => Cell.str c.data)) :: df.rows)
    ((renderTable ((df.cols.map (fun c => Cell.str c.data)) :: df.rows)).length + 1)
    (by simp)
    (by
      intro r hr
      rcases List.mem_cons.mp hr with rfl | hr
      · simpa using hcols
      · exact hrows r hr)
    (by
      have := renderTable_length ((df.cols.map (fun c => Cell.str c.data)) :: df.rows)
      omega)]
  simp only [List.map_cons, List.map_map]
  congr 1
  · rw [show ((fun s => String.mk s) ∘ rawCell ∘ (fun c : String => Cell.str c.data)) =
      (fun c : String => String.mk c.data) from rfl]
    simp only [stringMk_data, List.map_id']
  · simp [Function.comp]

/-! ## Lemmas: list helpers -/

theorem mem_zipWith {α β γ : Type} (f : α → β → γ) :
    ∀ (l1 : List α) (l2 : List β) (c : γ), c ∈ List.zipWith f l1 l2 →
      ∃ a b, a ∈ l1 ∧ b ∈ l2 ∧ c = f a b := by
  intro l1
  induction l1 with
  | nil => intro l2 c h; simp at h
  | cons a t ih =>
    intro l2 c h
    cases l2 with
    | nil => simp at h
    | cons b t2 =>
      rw [List.zipWith_cons_cons, List.mem_cons] at h
      rcases h with rfl | h
      · exact ⟨a, b, by simp, by simp, rfl⟩
      · obtain ⟨x, y, hx, hy, rfl⟩ := ih t2 c h
        exact ⟨x, y, by simp [hx], by simp [hy], rfl⟩

/-! ## Lemmas: the model loader -/

theorem loadGo_notFound (env : LoadEnv) :
    ∀ (l : List String) (att : List String), (∀ p ∈ l, env.exists_file p = false) →
      loadGo env l none att = (.error (.fileNotFound fnfMsg), att) := by
  intro l
  induction l with
  | nil => intro att _; rfl
  | cons p t ih =>
    intro att h
    have hp : env.exists_file p = false := h p (by simp)
    simp only [loadGo, hp, Bool.false_eq_true, if_false]
    exact ih att (fun q hq => h q (by simp [hq]))

theorem loadGo_lastErr (env : LoadEnv) (e : String) :
    ∀ (l : List String) (att : List String), (∀ p ∈ l, env.exists_file p = false) →
      loadGo env l (some e) att =
        (.error (.runtimeError ("Model load failed: " ++ e)), att) := by
  intro l
  induction l with
  | nil => intro att _; rfl
  | cons p t ih =>
    intro att h
    have hp : env.exists_file p = false := h p (by simp)
    simp only [loadGo, hp, Bool.false_eq_true, if_false]
    exact ih att (fun q hq => h q (by simp [hq]))

theorem loadGo_fail_prefix (env : LoadEnv) :
    ∀ (l1 rest : List String) (acc : Option String) (att : List String),
      (∀ q ∈ l1, env.exists_file q = true → ∃ er, env.joblib_load q = .error er) →
      ∃ acc' att', loadGo env (l1 ++ rest) acc att = loadGo env rest acc' att' := by
  intro l1
  induction l1 with
  | nil => intro rest acc att _; exact ⟨acc, att, rfl⟩
  | cons q t ih =>
    intro rest acc att h
    by_cases hq : env.exists_file q = true
    · obtain ⟨er, her⟩ := h q (by simp) hq
      simp only [List.cons_append, loadGo, hq, if_true, her]
      exact ih rest (some er) (att ++ [q]) (fun x hx => h x (by simp [hx]))
    · simp only [List.cons_append, loadGo, hq, if_false]
      exact ih rest acc att (fun x hx => h x (by simp [hx]))

theorem loadGo_first_ok (env : LoadEnv) (p : String) (m : Model) (l2 : List String)
    (hp : env.exists_file p = true) (hm : env.joblib_load p = .ok m) :
    ∀ (l1 : List String) (acc : Option String) (att : List String),
      (∀ q ∈ l1, env.exists_file q = false ∨ ∃ e, env.joblib_load q = .error e) →
      loadGo env (l1 ++ p :: l2) acc att =
        (.ok (m, p), att ++ l1.filter env.exists_file ++ [p]) := by
  intro l1
  induction l1 with
  | nil =>
    intro acc att _
    simp only [List.nil_append, loadGo, hp, if_true, hm, List.filter_nil, List.append_nil]
  | cons q t ih =>
    intro acc att h
    by_cases hq : env.exists_file q = true
    · rcases h q (by simp) with hq0 | ⟨e, he⟩
      · rw [hq0] at hq; simp at hq
      · simp only [List.cons_append, loadGo, hq, if_true, he, List.filter_cons, hq,
          List.append_eq]
        rw [ih (some e) (att ++ [q]) (fun x hx => h x (by simp [hx]))]
        simp
    · have hq' : env.exists_file q = false := by
        cases hqe : env.exists_file q
        · rfl
        · exact absurd hqe hq
      simp only [List.cons_append, loadGo, hq', Bool.false_eq_true, if_false,
        List.filter_cons, List.append_eq]
      exact ih acc att (fun x hx => h x (by simp [hx]))

/-! ## Substring characterization (meaning of `isSubstr`) -/

theorem isPrefixOf_iff_exists (n : List Char) :
    ∀ h : List Char, n.isPrefixOf h = true ↔ ∃ t, h = n ++ t := by
  induction n with
  | nil => intro h; simp [List.isPrefixOf]
  | cons a t ih =>
    intro h
    cases h with
    | nil => simp [List.isPrefixOf]
    | cons b hb =>
      simp only [List.isPrefixOf, Bool.and_eq_true, beq_iff_eq, ih hb, List.cons_append,
        List.cons.injEq]
      constructor
      · rintro ⟨rfl, t2, rfl⟩; exact ⟨t2, rfl, rfl⟩
      · rintro ⟨t2, rfl, h2⟩; exact ⟨rfl, t2, h2⟩

theorem isSubstr_iff (n : List Char) :
    ∀ h : List Char, isSubstr n h = true ↔ ∃ a b, h = a ++ n ++ b := by
  intro h
  induction h with
  | nil =>
    simp only [isSubstr, List.isEmpty_iff]
    constructor
    · rintro rfl; exact ⟨[], [], rfl⟩
    · rintro ⟨a, b, hab⟩
      rcases List.append_eq_nil.mp (List.append_eq_nil.mp hab.symm).1 with ⟨_, h2⟩
      exact h2
  | cons c t ih =>
    simp only [isSubstr, Bool.or_eq_true, ih, isPrefixOf_iff_exists]
    constructor
    · rintro (⟨t2, h2⟩ | ⟨a, b, rfl⟩)
      · exact ⟨[], t2, by simpa using h2⟩
      · exact ⟨c :: a, b, by simp⟩
    · rintro ⟨a, b, hab⟩
      cases a with
      | nil => exact Or.inl ⟨b, by simpa using hab⟩
      | cons a0 a1 =>
        right
        rw [List.cons_append, List.cons_append] at hab
        injection hab with h1 h2
        exact ⟨a1, b, h2⟩

/-! ## Claims about the model loader (C1, C5, C6) -/

/-- **C1, counterexample.** With the first two candidate files present and
both failing to deserialize (with errors `errA` and `errB`), `load_model`
raises `RuntimeError` whose message is exactly
`"Model load failed: errB"`: the trace of the earlier error `errA` is not
contained in the diagnostic payload, refuting the claim that the payload
contains every underlying error. -/
theorem claim_C1_counterexample :
    (load_model envBothFail).1 =
      Except.error (LoadErr.runtimeError "Model load failed: errB") ∧
    isSubstr ("errA").data ("Model load failed: errB").data = false :=
  ⟨rfl, rfl⟩

/-- **C1 (amended).** If every candidate before `p` either does not exist
or fails to deserialize, `p` exists and fails with error `e`, and all
candidates after `p` are absent, then the Loader fails with a
`RuntimeError` whose payload carries exactly the *last* attempted error
`e` — not a combined report; there is also only one deserialization
method (`joblib.load`), not two. -/
theorem claim_C1_amended (env : LoadEnv) (l1 l2 : List String) (p : String) (e : String)
    (hc : candidates = l1 ++ p :: l2)
    (h1 : ∀ q ∈ l1, env.exists_file q = true → ∃ er, env.joblib_load q = .error er)
    (hp : env.exists_file p = true) (he : env.joblib_load p = .error e)
    (h2 : ∀ q ∈ l2, env.exists_file q = false) :
    (load_model env).1 = .error (.runtimeError ("Model load failed: " ++ e)) := by
  unfold load_model
  rw [hc]
  obtain ⟨acc', att', hgo⟩ := loadGo_fail_prefix env l1 (p :: l2) none [] h1
  rw [hgo]
  simp only [loadGo, hp, if_true, he]
  rw [loadGo_lastErr env e l2 (att' ++ [p]) h2]

/-- Witness for C1 (amended): concrete environment where the first two
candidates exist and fail with `errA` then `errB`, the third is absent. -/
theorem claim_C1_witness :
    envBothFail.exists_file "svm_model.pkl" = true ∧
    envBothFail.joblib_load "svm_model.pkl" = .error "errB" ∧
    (load_model envBothFail).1 =
      .error (.runtimeError ("Model load failed: " ++ "errB")) := by
  refine ⟨rfl, rfl, ?_⟩
  exact claim_C1_amended envBothFail ["crime_model.pkl"] ["model.pkl"]
    "svm_model.pkl" "errB" rfl
    (by
      intro q hq
      simp only [List.mem_singleton] at hq
      subst hq
      intro _
      exact ⟨"errA", rfl⟩)
    rfl rfl
    (by
      intro q hq
      simp only [List.mem_singleton] at hq
      subst hq
      rfl)

/-- **C5.** If the candidates split as `l1 ++ p :: l2` where every
candidate in `l1` is absent or fails, and `p` exists and deserializes to
`m`, then the Loader returns `(m, p)` and the deserialization attempts are
exactly the existing members of `l1` followed by `p`: no candidate of `l2`
is ever attempted, and nothing further is tried after the success. -/
theorem claim_C5 (env : LoadEnv) (l1 l2 : List String) (p : String) (m : Model)
    (hc : candidates = l1 ++ p :: l2)
    (h1 : ∀ q ∈ l1, env.exists_file q = false ∨ ∃ e, env.joblib_load q = .error e)
    (hp : env.exists_file p = true) (hm : env.joblib_load p = .ok m) :
    load_model env = (.ok (m, p), l1.filter env.exists_file ++ [p]) := by
  unfold load_model
  rw [hc, loadGo_first_ok env p m l2 hp hm l1 none [] h1]
  simp

/-- Witness for C5: the first candidate exists and deserializes, and the
attempt list is exactly that single candidate. -/
theorem claim_C5_witness :
    load_model envFirstOk = (.ok (mPlain, "crime_model.pkl"), ["crime_model.pkl"]) := by
  have h := claim_C5 envFirstOk [] ["svm_model.pkl", "model.pkl"]
    "crime_model.pkl" mPlain rfl (by intro q hq; simp at hq) rfl rfl
  simpa using h

/-- **C6.** If no candidate file exists, the Loader fails with
`FileNotFoundError` (ArtifactNotFound), the attempt list is empty (no
deserialization method is ever invoked), the session starts halted, and a
halted session accepts no upload. -/
theorem claim_C6 (env : LoadEnv) (h : ∀ p ∈ candidates, env.exists_file p = false) :
    load_model env = (.error (.fileNotFound fnfMsg), []) ∧
    app_start env = .halted ("Failed to load model: " ++ fnfMsg) ∧
    ∀ df, app_handle_upload (app_start env) df = none := by
  have h1 : load_model env = (.error (.fileNotFound fnfMsg), []) :=
    loadGo_notFound env candidates [] h
  have h2 : app_start env = .halted ("Failed to load model: " ++ fnfMsg) := by
    unfold app_start
    rw [h1]
    rfl
  refine ⟨h1, h2, ?_⟩
  intro df
  rw [h2]
  rfl

/-- Witness for C6: the environment with no model file on disk. -/
theorem claim_C6_witness :
    load_model envNone = (.error (.fileNotFound fnfMsg), []) ∧
    app_start envNone = .halted ("Failed to load model: " ++ fnfMsg) ∧
    app_handle_upload (app_start envNone) dfRaw1 = none := by
  have h := claim_C6 envNone (by intro p _; rfl)
  exact ⟨h.1, h.2.1, h.2.2 dfRaw1⟩

/-! ## Lemmas: prediction wrapper and batch handler shapes -/

theorem half_eq : half = 1 / 2 := by
  unfold half
  rw [Rat.mkRat_eq_div]
  norm_num

theorem predict_df_proba (m : Model) (pp : List (List Cell) → List (ℚ × ℚ))
    (h : m.predict_proba = some pp) (df : DF) :
    predict_df m df =
      (⟨df.cols ++ ["pred_class", "pred_proba_class1"],
        List.zipWith (fun r p => r ++ [Cell.int (thresh p), Cell.rat p]) df.rows
          ((pp df.rows).map Prod.snd)⟩, 1) := by
  unfold predict_df
  rw [h]

theorem predict_df_plain (m : Model) (h : m.predict_proba = none) (df : DF) :
    predict_df m df =
      (⟨df.cols ++ ["pred_class"],
        List.zipWith (fun r c => r ++ [Cell.int c]) df.rows (m.predict df.rows)⟩, 1) := by
  unfold predict_df
  rw [h]

theorem handle_batch_valid (m : Model) (df : DF)
    (h : RAW_COLS.filter (fun c => !(df.cols.contains c)) = []) :
    handle_batch m df =
      (BatchResult.ok (predict_df m (df.select RAW_COLS)).1
        (toCSV (predict_df m (df.select RAW_COLS)).1),
       (predict_df m (df.select RAW_COLS)).2) := by
  simp only [handle_batch]
  rw [h]
  simp

theorem handle_batch_invalid (m : Model) (df : DF)
    (h : RAW_COLS.filter (fun c => !(df.cols.contains c)) ≠ []) :
    handle_batch m df =
      (BatchResult.schemaError (RAW_COLS.filter (fun c => !(df.cols.contains c))), 0) := by
  simp only [handle_batch]
  rw [if_neg h]

/-! ## Claims about the batch handler (C2, C4) -/

/-- **C2.** For every model and every upload missing at least one required
column, the batch handler reports a schema error listing exactly the
missing required columns (membership in the reported list is equivalent to
being a required column absent from the upload), and the model's inference
entry point is invoked zero times. -/
theorem claim_C2 (m : Model) (df : DF) (hmiss : ∃ c ∈ RAW_COLS, c ∉ df.cols) :
    (handle_batch m df).1 =
      .schemaError (RAW_COLS.filter (fun c => !(df.cols.contains c))) ∧
    (handle_batch m df).2 = 0 ∧
    ∀ c : String,
      c ∈ RAW_COLS.filter (fun c => !(df.cols.contains c)) ↔
        c ∈ RAW_COLS ∧ c ∉ df.cols := by
  have hiff : ∀ c : String,
      c ∈ RAW_COLS.filter (fun c => !(df.cols.contains c)) ↔
        c ∈ RAW_COLS ∧ c ∉ df.cols := by
    intro c
    simp [List.mem_filter]
  have hne : RAW_COLS.filter (fun c => !(df.cols.contains c)) ≠ [] := by
    obtain ⟨c, hc1, hc2⟩ := hmiss
    intro hnil
    have hmem := (hiff c).mpr ⟨hc1, hc2⟩
    rw [hnil] at hmem
    simp at hmem
  rw [handle_batch_invalid m df hne]
  exact ⟨rfl, rfl, hiff⟩

/-- Witness for C2: an upload missing `City` is rejected with exactly that
column reported and no inference call. -/
theorem claim_C2_witness :
    (handle_batch mPlain dfNoCity).1 =
      .schemaError (RAW_COLS.filter (fun c => !(dfNoCity.cols.contains c))) ∧
    (handle_batch mPlain dfNoCity).2 = 0 ∧
    ("City" ∈ RAW_COLS.filter (fun c => !(dfNoCity.cols.contains c)) ↔
      "City" ∈ RAW_COLS ∧ "City" ∉ dfNoCity.cols) := by
  have h := claim_C2 mPlain dfNoCity ⟨"City", by decide, by decide⟩
  exact ⟨h.1, h.2.1, h.2.2 "City"⟩

/-- **C4, counterexample.** An upload carrying all required columns plus
an extra column `Extra` passes validation, yet the produced prediction
table's columns are exactly the required schema plus `pred_class`: the
original column `Extra` is dropped, refuting the claim that the output
contains all columns of the original uploaded file. -/
theorem claim_C4_counterexample :
    "Extra" ∈ dfExtra.cols ∧
    batchOkCols mPlain dfExtra = some (RAW_COLS ++ ["pred_class"]) ∧
    "Extra" ∉ RAW_COLS ++ ["pred_class"] := by
  refine ⟨by decide, by decide, by decide⟩

/-- **C4 (amended).** For every validated upload, the produced table's
columns are exactly the eleven required schema columns (in schema order)
followed by the appended prediction column(s); any original column outside
the required schema is dropped by the `df_up[RAW_COLS]` selection. -/
theorem claim_C4_amended (m : Model) (df : DF) (hval : ∀ c ∈ RAW_COLS, c ∈ df.cols) :
    batchOkCols m df =
      some (RAW_COLS ++
        (if m.predict_proba.isSome then ["pred_class", "pred_proba_class1"]
         else ["pred_class"])) := by
  have hmiss : RAW_COLS.filter (fun c => !(df.cols.contains c)) = [] := by
    rw [List.filter_eq_nil_iff]
    intro c hc
    simp [hval c hc]
  unfold batchOkCols
  rw [handle_batch_valid m df hmiss]
  cases hpp : m.predict_proba with
  | none => rw [predict_df_plain m hpp (df.select RAW_COLS)]; simp [DF.select]
  | some pp => rw [predict_df_proba m pp hpp (df.select RAW_COLS)]; simp [DF.select]

/-- Witness for C4 (amended): a validated upload over exactly the raw
schema yields the schema columns plus `pred_class` under a plain model. -/
theorem claim_C4_witness :
    batchOkCols mPlain dfRaw1 = some (RAW_COLS ++ ["pred_class"]) := by
  have h := claim_C4_amended mPlain dfRaw1 (fun c hc => hc)
  simpa [mPlain] using h

/-- **C10.** For all form inputs, `build_single_row` yields a table whose
column list is exactly the eleven raw schema columns in order, with
exactly one row of exactly eleven cells, and whose `Date Reported` cell is
the reported date combined with the hardwired time 9:00 — independent of
the occurrence time the user entered (the only time parameter). -/
theorem claim_C10 (d1 d2 : DateV) (t : TimeV) (city cc cd vg wu cdom : List Char)
    (va pd : ℤ) :
    (build_single_row d1 d2 t city cc cd va vg wu cdom pd).cols = RAW_COLS ∧
    (build_single_row d1 d2 t city cc cd va vg wu cdom pd).rows.length = 1 ∧
    ((build_single_row d1 d2 t city cc cd va vg wu cdom pd).rows.getD 0 []).length =
      RAW_COLS.length ∧
    ((build_single_row d1 d2 t city cc cd va vg wu cdom pd).rows.getD 0 []).getD 0
        (Cell.str []) = Cell.datetime d1.y d1.m d1.d 9 0 :=
  ⟨rfl, rfl, rfl, rfl⟩

/-! ## Claims about the prediction wrapper and display (C3, C7, C9) -/

/-- **C3.** For every model exposing a probability entry point (returning
one pair per row) and every input table, the prediction wrapper appends
both a `pred_class` and a `pred_proba_class1` column, keeps one output row
per input row, and sets the discrete class of each row to `1` exactly when
the positive-class probability is at least `0.5` and to `0` otherwise,
alongside the raw probability. -/
theorem claim_C3 (m : Model) (pp : List (List Cell) → List (ℚ × ℚ))
    (hpp : m.predict_proba = some pp) (df : DF)
    (hlen : (pp df.rows).length = df.rows.length) :
    ((predict_df m df).1).cols = df.cols ++ ["pred_class", "pred_proba_class1"] ∧
    ((predict_df m df).1).rows.length = df.rows.length ∧
    ∀ i, i < df.rows.length →
      ((predict_df m df).1).rows.getD i [] =
        df.rows.getD i [] ++
          [Cell.int (if 1 / 2 ≤ ((pp df.rows).map Prod.snd).getD i 0 then 1 else 0),
           Cell.rat (((pp df.rows).map Prod.snd).getD i 0)] := by
  rw [predict_df_proba m pp hpp df]
  refine ⟨rfl, ?_, ?_⟩
  · simp [hlen]
  · intro i hi
    have hi2 : i < (List.zipWith
        (fun r p => r ++ [Cell.int (thresh p), Cell.rat p]) df.rows
        ((pp df.rows).map Prod.snd)).length := by
      simp [hlen]
      omega
    have hi3 : i < ((pp df.rows).map Prod.snd).length := by
      simp [hlen]
      exact hi
    rw [List.getD_eq_getElem _ _ hi2, List.getElem_zipWith,
      List.getD_eq_getElem _ _ hi, List.getD_eq_getElem _ _ hi3]
    simp [thresh, half_eq]

/-- Witness for C3: the probability stub returning `0.73` on the fixed
sample upload produces class `1` and probability `0.73` appended to the
single row. -/
theorem claim_C3_witness :
    ((predict_df mProba dfRaw1).1).cols = dfRaw1.cols ++ ["pred_class", "pred_proba_class1"] ∧
    ((predict_df mProba dfRaw1).1).rows.length = dfRaw1.rows.length ∧
    ((predict_df mProba dfRaw1).1).rows.getD 0 [] =
      dfRaw1.rows.getD 0 [] ++ [Cell.int 1, Cell.rat (mkRat 73 100)] := by
  have h := claim_C3 mProba
    (fun rows => rows.map (fun _ => (mkRat 27 100, mkRat 73 100))) rfl dfRaw1 (by simp)
  refine ⟨h.1, h.2.1, ?_⟩
  have h3 := h.2.2 0 (by decide)
  rw [h3]
  have hle : (1 : ℚ) / 2 ≤ mkRat 73 100 := by
    rw [Rat.mkRat_eq_div]
    norm_num
  have hval : ((fun rows : List (List Cell) =>
      rows.map (fun _ => (mkRat 27 100, mkRat 73 100))) dfRaw1.rows).map
        Prod.snd = [mkRat 73 100] := rfl
  rw [hval]
  rw [show ([mkRat 73 100] : List ℚ).getD 0 0 = mkRat 73 100 from rfl]
  rw [if_pos hle]

/-- **C7.** For every model exposing only `predict` and every single form
submission, the result table's columns are exactly the schema plus
`pred_class`: it contains the class column and no probability column, and
the display's probability line is absent. -/
theorem claim_C7 (m : Model) (hm : m.predict_proba = none) (d1 d2 : DateV) (t : TimeV)
    (city cc cd : List Char) (va : ℤ) (vg wu cdom : List Char) (pd : ℤ) :
    (single_out m d1 d2 t city cc cd va vg wu cdom pd).cols = RAW_COLS ++ ["pred_class"] ∧
    "pred_class" ∈ (single_out m d1 d2 t city cc cd va vg wu cdom pd).cols ∧
    "pred_proba_class1" ∉ (single_out m d1 d2 t city cc cd va vg wu cdom pd).cols ∧
    (single_display (single_out m d1 d2 t city cc cd va vg wu cdom pd)).2 = none := by
  have hcols : (single_out m d1 d2 t city cc cd va vg wu cdom pd).cols =
      RAW_COLS ++ ["pred_class"] := by
    unfold single_out
    rw [predict_df_plain m hm]
    rfl
  refine ⟨hcols, ?_, ?_, ?_⟩
  · rw [hcols]; decide
  · rw [hcols]; decide
  · simp only [single_display]
    rw [hcols]
    rw [if_neg (by decide : ¬("pred_proba_class1" ∈ RAW_COLS ++ ["pred_class"]))]

/-- Witness for C7: the plain stub model on concrete form values. -/
theorem claim_C7_witness :
    (single_out mPlain dRep dOcc tOcc ("Mumbai").data ("IPC-123").data [] 30
      ("Male").data ("None").data ("Urban").data 10).cols = RAW_COLS ++ ["pred_class"] ∧
    "pred_class" ∈ (single_out mPlain dRep dOcc tOcc ("Mumbai").data ("IPC-123").data [] 30
      ("Male").data ("None").data ("Urban").data 10).cols ∧
    "pred_proba_class1" ∉ (single_out mPlain dRep dOcc tOcc ("Mumbai").data
      ("IPC-123").data [] 30 ("Male").data ("None").data ("Urban").data 10).cols ∧
    (single_display (single_out mPlain dRep dOcc tOcc ("Mumbai").data ("IPC-123").data []
      30 ("Male").data ("None").data ("Urban").data 10)).2 = none :=
  claim_C7 mPlain rfl dRep dOcc tOcc ("Mumbai").data ("IPC-123").data [] 30
    ("Male").data ("None").data ("Urban").data 10

/-- **C9.** For every model with a probability entry point returning one
probability pair on the single built row, the displayed label is `Closed`
exactly when the stored discrete class is `1` (equivalently, when the
probability is at least `0.5`), `Not Closed` when it is `0`, and the
displayed probability line is the probability formatted as a percentage
with two decimal places. -/
theorem claim_C9 (m : Model) (pp : List (List Cell) → List (ℚ × ℚ))
    (hpp : m.predict_proba = some pp) (d1 d2 : DateV) (t : TimeV)
    (city cc cd : List Char) (va : ℤ) (vg wu cdom : List Char) (pd : ℤ) (q p : ℚ)
    (hval : pp (build_single_row d1 d2 t city cc cd va vg wu cdom pd).rows = [(q, p)]) :
    cellToInt ((single_out m d1 d2 t city cc cd va vg wu cdom pd).getCell 0 "pred_class") =
      (if 1 / 2 ≤ p then 1 else 0) ∧
    single_display (single_out m d1 d2 t city cc cd va vg wu cdom pd) =
      ((if 1 / 2 ≤ p then "Closed" else "Not Closed"), some (fmtPercent p)) := by
  have hout : single_out m d1 d2 t city cc cd va vg wu cdom pd =
      ⟨RAW_COLS ++ ["pred_class", "pred_proba_class1"],
        [(build_single_row d1 d2 t city cc cd va vg wu cdom pd).rows.getD 0 [] ++
          [Cell.int (thresh p), Cell.rat p]]⟩ := by
    unfold single_out
    rw [predict_df_proba m pp hpp _, hval]
    rfl
  have hcell : (DF.mk (RAW_COLS ++ ["pred_class", "pred_proba_class1"])
      [(build_single_row d1 d2 t city cc cd va vg wu cdom pd).rows.getD 0 [] ++
        [Cell.int (thresh p), Cell.rat p]]).getCell 0 "pred_class" =
      Cell.int (thresh p) := rfl
  have hcellp : (DF.mk (RAW_COLS ++ ["pred_class", "pred_proba_class1"])
      [(build_single_row d1 d2 t city cc cd va vg wu cdom pd).rows.getD 0 [] ++
        [Cell.int (thresh p), Cell.rat p]]).getCell 0 "pred_proba_class1" =
      Cell.rat p := rfl
  rw [hout]
  constructor
  · rw [hcell]
    simp [cellToInt, thresh, half_eq]
  · simp only [single_display, hcell, hcellp]
    rw [if_pos (by decide :
      "pred_proba_class1" ∈ RAW_COLS ++ ["pred_class", "pred_proba_class1"])]
    by_cases hp : (1 : ℚ) / 2 ≤ p
    · simp [cellToInt, cellToRat, thresh, half_eq, hp]
    · simp [cellToInt, cellToRat, thresh, half_eq, hp]

/-- Witness for C9: the probability stub returning `0.73` yields the label
`Closed` and the rendered probability `73.00%`. -/
theorem claim_C9_witness :
    cellToInt ((single_out mProba dRep dOcc tOcc ("Mumbai").data ("IPC-123").data [] 30
      ("Male").data ("None").data ("Urban").data 10).getCell 0 "pred_class") = 1 ∧
    single_display (single_out mProba dRep dOcc tOcc ("Mumbai").data ("IPC-123").data []
      30 ("Male").data ("None").data ("Urban").data 10) =
      ("Closed", some "73.00%") := by
  have h := claim_C9 mProba
    (fun rows => rows.map (fun _ => (mkRat 27 100, mkRat 73 100))) rfl
    dRep dOcc tOcc ("Mumbai").data ("IPC-123").data [] 30
    ("Male").data ("None").data ("Urban").data 10 (mkRat 27 100) (mkRat 73 100) rfl
  have hle : (1 : ℚ) / 2 ≤ mkRat 73 100 := by
    rw [Rat.mkRat_eq_div]
    norm_num
  have hfmt : fmtPercent (mkRat 73 100) = "73.00%" := by decide
  refine ⟨?_, ?_⟩
  · rw [h.1, if_pos hle]
  · rw [h.2, if_pos hle, hfmt]

/-! ## Claim C8: CSV export/import round-trip -/

/-- **C8.** For every batch run that passes validation (the handler
returns a prediction table and its CSV export), re-parsing the exported
CSV yields a table with the same number of rows, the same column names,
and the same values in the appended `pred_class` and `pred_proba_class1`
columns as the in-memory prediction table. -/
theorem claim_C8 (m : Model) (df : DF) (preds : DF) (csv : List Char)
    (hok : (handle_batch m df).1 = BatchResult.ok preds csv) :
    (read_csv csv).rows.length = preds.rows.length ∧
    (read_csv csv).cols = preds.cols ∧
    DF.col (read_csv csv) "pred_class" = DF.col preds "pred_class" ∧
    DF.col (read_csv csv) "pred_proba_class1" = DF.col preds "pred_proba_class1" := by
  have hmiss : RAW_COLS.filter (fun c => !(df.cols.contains c)) = [] := by
    by_contra hne
    rw [handle_batch_invalid m df hne] at hok
    simp at hok
  rw [handle_batch_valid m df hmiss] at hok
  have hok2 : BatchResult.ok (predict_df m (df.select RAW_COLS)).1
      (toCSV (predict_df m (df.select RAW_COLS)).1) = BatchResult.ok preds csv := hok
  obtain ⟨hP, hcsv⟩ : (predict_df m (df.select RAW_COLS)).1 = preds ∧
      toCSV (predict_df m (df.select RAW_COLS)).1 = csv := by
    injection hok2 with h1 h2
    exact ⟨h1, h2⟩
  subst hP
  subst hcsv
  have hsellen : ∀ a ∈ (df.select RAW_COLS).rows, a.length = RAW_COLS.length := by
    intro a ha
    simp only [DF.select, List.mem_map] at ha
    obtain ⟨r, _, rfl⟩ := ha
    simp
  have hselcols : (df.select RAW_COLS).cols = RAW_COLS := rfl
  cases hpp : m.predict_proba with
  | some pp =>
    rw [predict_df_proba m pp hpp (df.select RAW_COLS), hselcols]
    have hshape : ∀ r ∈ List.zipWith
        (fun r p => r ++ [Cell.int (thresh p), Cell.rat p]) (df.select RAW_COLS).rows
        ((pp (df.select RAW_COLS).rows).map Prod.snd),
        ∃ a p0, a ∈ (df.select RAW_COLS).rows ∧
          r = a ++ [Cell.int (thresh p0), Cell.rat p0] := by
      intro r hr
      obtain ⟨a, b, ha, _, rfl⟩ := mem_zipWith _ _ _ r hr
      exact ⟨a, b, ha, rfl⟩
    have hrow2 : ∀ r ∈ List.zipWith
        (fun r p => r ++ [Cell.int (thresh p), Cell.rat p]) (df.select RAW_COLS).rows
        ((pp (df.select RAW_COLS).rows).map Prod.snd), 2 ≤ r.length := by
      intro r hr
      obtain ⟨a, p0, _, rfl⟩ := hshape r hr
      simp
    have hRT := read_csv_toCSV
      ⟨RAW_COLS ++ ["pred_class", "pred_proba_class1"],
        List.zipWith (fun r p => r ++ [Cell.int (thresh p), Cell.rat p])
          (df.select RAW_COLS).rows ((pp (df.select RAW_COLS).rows).map Prod.snd)⟩
      hrow2 (by simp)
    rw [hRT]
    refine ⟨by simp, rfl, ?_, ?_⟩
    · simp only [DF.col, List.map_map]
      apply List.map_congr_left
      intro r hr
      obtain ⟨a, p0, ha, rfl⟩ := hshape r hr
      have hlen2 : a.length = 11 := by rw [hsellen a ha]; rfl
      have hlen : (a.map (fun c => interpretCell (rawCell c))).length = 11 := by
        simp [hlen2]
      simp only [Function.comp_apply, List.map_append]
      rw [show ((RAW_COLS ++ ["pred_class", "pred_proba_class1"]).indexOf "pred_class")
        = 11 from rfl]
      rw [List.getD_append_right _ _ _ _ (le_of_eq hlen),
        List.getD_append_right _ _ _ _ (le_of_eq hlen2)]
      rw [hlen, hlen2]
      simp [interpretCell_int]
    · simp only [DF.col, List.map_map]
      apply List.map_congr_left
      intro r hr
      obtain ⟨a, p0, ha, rfl⟩ := hshape r hr
      have hlen2 : a.length = 11 := by rw [hsellen a ha]; rfl
      have hlen : (a.map (fun c => interpretCell (rawCell c))).length = 11 := by
        simp [hlen2]
      simp only [Function.comp_apply, List.map_append]
      rw [show ((RAW_COLS ++ ["pred_class", "pred_proba_class1"]).indexOf
        "pred_proba_class1") = 12 from rfl]
      rw [List.getD_append_right _ _ _ _ (by omega : (a.map
        (fun c => interpretCell (rawCell c))).length ≤ 12),
        List.getD_append_right _ _ _ _ (by omega : a.length ≤ 12)]
      rw [hlen, hlen2]
      simp [interpretCell_rat]
  | none =>
    rw [predict_df_plain m hpp (df.select RAW_COLS), hselcols]
    have hshape : ∀ r ∈ List.zipWith (fun r c => r ++ [Cell.int c])
        (df.select RAW_COLS).rows (m.predict (df.select RAW_COLS).rows),
        ∃ a c0, a ∈ (df.select RAW_COLS).rows ∧ r = a ++ [Cell.int c0] := by
      intro r hr
      obtain ⟨a, b, ha, _, rfl⟩ := mem_zipWith _ _ _ r hr
      exact ⟨a, b, ha, rfl⟩
    have hrow2 : ∀ r ∈ List.zipWith (fun r c => r ++ [Cell.int c])
        (df.select RAW_COLS).rows (m.predict (df.select RAW_COLS).rows),
        2 ≤ r.length := by
      intro r hr
      obtain ⟨a, c0, ha, rfl⟩ := hshape r hr
      have h11 : a.length = 11 := by rw [hsellen a ha]; rfl
      simp only [List.length_append, List.length_singleton]
      omega
    have hRT := read_csv_toCSV
      ⟨RAW_COLS ++ ["pred_class"],
        List.zipWith (fun r c => r ++ [Cell.int c]) (df.select RAW_COLS).rows
          (m.predict (df.select RAW_COLS).rows)⟩
      hrow2 (by simp [RAW_COLS])
    rw [hRT]
    refine ⟨by simp, rfl, ?_, ?_⟩
    · simp only [DF.col, List.map_map]
      apply List.map_congr_left
      intro r hr
      obtain ⟨a, c0, ha, rfl⟩ := hshape r hr
      have hlen2 : a.length = 11 := by rw [hsellen a ha]; rfl
      have hlen : (a.map (fun c => interpretCell (rawCell c))).length = 11 := by
        simp [hlen2]
      simp only [Function.comp_apply, List.map_append]
      rw [show ((RAW_COLS ++ ["pred_class"]).indexOf "pred_class") = 11 from rfl]
      rw [List.getD_append_right _ _ _ _ (le_of_eq hlen),
        List.getD_append_right _ _ _ _ (le_of_eq hlen2)]
      rw [hlen, hlen2]
      simp [interpretCell_int]
    · simp only [DF.col, List.map_map]
      apply List.map_congr_left
      intro r hr
      obtain ⟨a, c0, ha, rfl⟩ := hshape r hr
      have hlen2 : a.length = 11 := by rw [hsellen a ha]; rfl
      have hfull : (a ++ [Cell.int c0]).length = 12 := by
        simp [hlen2]
      simp only [Function.comp_apply]
      rw [show ((RAW_COLS ++ ["pred_class"]).indexOf "pred_proba_class1") = 12 from rfl]
      rw [List.getD_eq_default _ _ (le_of_eq (by rw [List.length_map, hfull] :
          ((a ++ [Cell.int c0]).map (fun c => interpretCell (rawCell c))).length = 12)),
        List.getD_eq_default _ _ (le_of_eq hfull)]

/-- Witness for C8: the probability stub on the fixed valid upload; the
exported CSV re-parses to a table with matching row count, columns and
prediction values. -/
theorem claim_C8_witness :
    (read_csv (toCSV (predict_df mProba (dfRaw1.select RAW_COLS)).1)).rows.length =
      ((predict_df mProba (dfRaw1.select RAW_COLS)).1).rows.length ∧
    (read_csv (toCSV (predict_df mProba (dfRaw1.select RAW_COLS)).1)).cols =
      ((predict_df mProba (dfRaw1.select RAW_COLS)).1).cols ∧
    DF.col (read_csv (toCSV (predict_df mProba (dfRaw1.select RAW_COLS)).1)) "pred_class" =
      DF.col ((predict_df mProba (dfRaw1.select RAW_COLS)).1) "pred_class" ∧
    DF.col (read_csv (toCSV (predict_df mProba (dfRaw1.select RAW_COLS)).1))
        "pred_proba_class1" =
      DF.col ((predict_df mProba (dfRaw1.select RAW_COLS)).1) "pred_proba_class1" :=
  claim_C8 mProba dfRaw1 ((predict_df mProba (dfRaw1.select RAW_COLS)).1)
    (toCSV (predict_df mProba (dfRaw1.select RAW_COLS)).1) rfl

end CrimeApp
